import Mathlib

/-!
# Verification of the celestial-transit computation engine

Shallow embedding, over exact rationals (and reals for the trigonometric
chart geometry), of the astronomical computation and event-detection engine:
the mean-longitude orbital model, angle utilities, Julian-day conversions,
aspect finding, the retrograde-station scan, the lunar-phase bisection
solver, and the synastry compatibility index.

JavaScript numeric primitives are modelled exactly:
`x % y` is the truncating remainder, `Math.floor` is the integer floor,
`Math.round` is floor of `x + 1/2` (round half toward positive infinity).
-/

namespace Celestial

/-- JS truncation toward zero (`Math.trunc`, and the quotient underlying `%`). -/
def jsTrunc (q : ℚ) : ℤ := if 0 ≤ q then ⌊q⌋ else ⌈q⌉

/-- The JS `%` operator: remainder with the sign of the dividend. -/
def jsRem (a b : ℚ) : ℚ := a - b * (jsTrunc (a / b) : ℚ)

/-- JS `Math.round`: round half toward positive infinity. -/
def jsRound (q : ℚ) : ℤ := ⌊q + 1/2⌋

/-- `Math.round(x * 100) / 100`: round to two decimals. -/
def round2 (q : ℚ) : ℚ := (jsRound (q * 100) : ℚ) / 100

/-- `Math.round(x * 10) / 10`: round to one decimal. -/
def round1 (q : ℚ) : ℚ := (jsRound (q * 10) : ℚ) / 10

/-- Source `norm` (both modules): `a = a % 360; return a < 0 ? a + 360 : a`. -/
def norm (a : ℚ) : ℚ := if jsRem a 360 < 0 then jsRem a 360 + 360 else jsRem a 360

theorem jsTrunc_of_nonneg {q : ℚ} (h : 0 ≤ q) : jsTrunc q = ⌊q⌋ := if_pos h

theorem jsTrunc_of_neg {q : ℚ} (h : q < 0) : jsTrunc q = ⌈q⌉ :=
  if_neg (by exact not_le.mpr h)

/-- The normalization agrees with the mathematical floor-based reduction
`a - 360 * floor (a / 360)`, i.e. `360 * fract (a / 360)`. -/
theorem norm_eq_floor (a : ℚ) : norm a = a - 360 * (⌊a / 360⌋ : ℚ) := by
  have hfl := Int.floor_le (a / 360)
  have hfu := Int.lt_floor_add_one (a / 360)
  unfold norm jsRem
  rcases le_or_lt 0 a with ha | ha
  · rw [jsTrunc_of_nonneg (by positivity)]
    have h0 : (0:ℚ) ≤ a - 360 * (⌊a / 360⌋ : ℚ) := by nlinarith
    rw [if_neg (not_lt.mpr h0)]
  · rw [jsTrunc_of_neg (by exact div_neg_of_neg_of_pos ha (by norm_num))]
    by_cases hz : ⌈a / 360⌉ = ⌊a / 360⌋
    · have hx : a / 360 = (⌊a / 360⌋ : ℚ) := by
        have hcl := Int.le_ceil (a / 360)
        rw [hz] at hcl
        linarith
      have hr : a - 360 * ((⌈a / 360⌉ : ℤ) : ℚ) = 0 := by
        rw [hz]
        have : a = 360 * (a / 360) := by ring
        nlinarith
      rw [hr, if_neg (by norm_num)]
      rw [hz] at hr
      linarith
    · have hle := Int.ceil_le_floor_add_one (a / 360)
      have hge := Int.floor_le_ceil (a / 360)
      have hceil : ⌈a / 360⌉ = ⌊a / 360⌋ + 1 := by omega
      rw [hceil]
      have hneg : a - 360 * (((⌊a / 360⌋ + 1 : ℤ)) : ℚ) < 0 := by
        push_cast
        nlinarith
      rw [if_pos hneg]
      push_cast
      ring

theorem norm_nonneg (a : ℚ) : 0 ≤ norm a := by
  rw [norm_eq_floor]
  have := Int.floor_le (a / 360)
  nlinarith

theorem norm_lt_360 (a : ℚ) : norm a < 360 := by
  rw [norm_eq_floor]
  have := Int.lt_floor_add_one (a / 360)
  nlinarith

theorem norm_of_mem (a : ℚ) (h0 : 0 ≤ a) (h1 : a < 360) : norm a = a := by
  rw [norm_eq_floor]
  have : ⌊a / 360⌋ = 0 := by
    apply Int.floor_eq_zero_iff.mpr
    refine Set.mem_Ico.mpr ⟨by positivity, ?_⟩
    rw [div_lt_one (by norm_num)]
    exact h1
  rw [this]
  push_cast
  ring

theorem norm_add_int_mul (a : ℚ) (k : ℤ) : norm (a + 360 * k) = norm a := by
  rw [norm_eq_floor, norm_eq_floor]
  have : ⌊(a + 360 * (k:ℚ)) / 360⌋ = ⌊a / 360⌋ + k := by
    rw [show (a + 360 * (k:ℚ)) / 360 = a / 360 + (k:ℚ) by ring]
    exact Int.floor_add_int _ _
  rw [this]
  push_cast
  ring

theorem norm_idem (a : ℚ) : norm (norm a) = norm a :=
  norm_of_mem _ (norm_nonneg a) (norm_lt_360 a)

/-- C10: the normalization function maps every rational longitude into
`[0, 360)` and is idempotent: `norm (norm L) = norm L`. -/
theorem norm_range_and_idempotent (L : ℚ) :
    0 ≤ norm L ∧ norm L < 360 ∧ norm (norm L) = norm L :=
  ⟨norm_nonneg L, norm_lt_360 L, norm_idem L⟩

/-! ## Constant tables (ZODIAC, PLANETS, ASPECTS) -/

/-- The 12 zodiac sign names in canonical order. -/
def ZODIAC : List String :=
  ["Aries", "Taurus", "Gemini", "Cancer", "Leo", "Virgo", "Libra", "Scorpio",
   "Sagittarius", "Capricorn", "Aquarius", "Pisces"]

/-- A mean-element planet record: display name, daily motion (degrees/day),
mean longitude at the J2000 epoch (degrees). -/
structure PlanetData where
  pname : String
  motion : ℚ
  j2000 : ℚ
deriving DecidableEq

/-- The planet table of the natal-chart module (10 bodies, insertion order). -/
def PLANETS : List (String × PlanetData) :=
  [("sun", ⟨"Sun", 0.9856, 280.46⟩),
   ("moon", ⟨"Moon", 13.176, 218.32⟩),
   ("mercury", ⟨"Mercury", 4.092, 252.25⟩),
   ("venus", ⟨"Venus", 1.602, 181.98⟩),
   ("mars", ⟨"Mars", 0.524, 355.45⟩),
   ("jupiter", ⟨"Jupiter", 0.0831, 34.40⟩),
   ("saturn", ⟨"Saturn", 0.0335, 49.94⟩),
   ("uranus", ⟨"Uranus", 0.0117, 313.23⟩),
   ("neptune", ⟨"Neptune", 0.006, 304.88⟩),
   ("pluto", ⟨"Pluto", 0.004, 238.96⟩)]

/-- J2000 reference epoch as a Julian day. -/
def J2000 : ℚ := 2451545.0

/-- Source `lon(p, jd)`: mean longitude of body `p` at Julian day `jd`,
`norm(j2000 + motion * (jd - J2000))`, or `0` for an unknown body key. -/
def lon (p : String) (jd : ℚ) : ℚ :=
  match PLANETS.lookup p with
  | some pl => norm (pl.j2000 + pl.motion * (jd - J2000))
  | none => 0

/-- Result record of `getSign`: sign name, rounded degree in sign, sign index. -/
structure SignData where
  sign : String
  degree : ℚ
  signIndex : ℤ
deriving DecidableEq

/-- Source `getSign(lon)` of the natal module: sign index is
`floor(norm(lon)/30)`, degree is `(norm(lon) % 30)` rounded to 2 decimals. -/
def getSign (l : ℚ) : SignData :=
  ⟨ZODIAC.getD (⌊norm l / 30⌋).toNat "", round2 (jsRem (norm l) 30), ⌊norm l / 30⌋⟩

/-- Source `sign(lon)` of the transits module: same decomposition but the
degree is rounded to 1 decimal. -/
def signT (l : ℚ) : String × ℚ :=
  (ZODIAC.getD (⌊norm l / 30⌋).toNat "", round1 (jsRem (norm l) 30))

theorem jsRem_of_nonneg_lt {n : ℚ} (b : ℚ) (hb : 0 < b) (h0 : 0 ≤ n) :
    jsRem n b = n - b * ⌊n / b⌋ := by
  unfold jsRem
  rw [jsTrunc_of_nonneg (by positivity)]

theorem jsRem30_bounds {n : ℚ} (h0 : 0 ≤ n) : 0 ≤ jsRem n 30 ∧ jsRem n 30 < 30 := by
  rw [jsRem_of_nonneg_lt 30 (by norm_num) h0]
  have h1 := Int.floor_le (n / 30)
  have h2 := Int.lt_floor_add_one (n / 30)
  constructor <;> nlinarith

theorem signIndex_bounds (l : ℚ) : 0 ≤ ⌊norm l / 30⌋ ∧ ⌊norm l / 30⌋ ≤ 11 := by
  have h0 := norm_nonneg l
  have h1 := norm_lt_360 l
  constructor
  · exact Int.floor_nonneg.mpr (by positivity)
  · have hq : norm l / 30 < 12 := by
      rw [div_lt_iff (by norm_num : (0:ℚ) < 30)]
      linarith
    have hlt : ⌊norm l / 30⌋ < 12 := by
      apply Int.floor_lt.mpr
      push_cast
      linarith
    omega

theorem round2_bounds {x : ℚ} (h0 : 0 ≤ x) (h1 : x < 30) :
    0 ≤ round2 x ∧ round2 x ≤ 30 := by
  unfold round2 jsRound
  constructor
  · have : (0:ℤ) ≤ ⌊x * 100 + 1/2⌋ := Int.floor_nonneg.mpr (by nlinarith)
    positivity
  · have hlt : ⌊x * 100 + 1/2⌋ < 3001 := by
      apply Int.floor_lt.mpr
      push_cast
      nlinarith
    have hle : ⌊x * 100 + 1/2⌋ ≤ 3000 := by omega
    have hc : ((⌊x * 100 + 1/2⌋ : ℤ) : ℚ) ≤ 3000 := by exact_mod_cast hle
    linarith

theorem round1_bounds {x : ℚ} (h0 : 0 ≤ x) (h1 : x < 30) :
    0 ≤ round1 x ∧ round1 x ≤ 30 := by
  unfold round1 jsRound
  constructor
  · have : (0:ℤ) ≤ ⌊x * 10 + 1/2⌋ := Int.floor_nonneg.mpr (by nlinarith)
    positivity
  · have hlt : ⌊x * 10 + 1/2⌋ < 301 := by
      apply Int.floor_lt.mpr
      push_cast
      nlinarith
    have hle : ⌊x * 10 + 1/2⌋ ≤ 300 := by omega
    have hc : ((⌊x * 10 + 1/2⌋ : ℤ) : ℚ) ≤ 300 := by exact_mod_cast hle
    linarith

/-- C4 (amended): for every longitude, the sign index is in `[0, 11]` and the
rounded degree-in-sign lies in the closed interval `[0, 30]` — rounding can
push a degree of the form `29.995 ≤ d < 30` up to exactly `30`, so the open
upper bound claimed by the spec does not hold; this covers both the natal
module (2 decimals) and the transits module (1 decimal). -/
theorem getSign_index_and_degree_ranges (L : ℚ) :
    (0 ≤ (getSign L).signIndex ∧ (getSign L).signIndex ≤ 11) ∧
    (0 ≤ (getSign L).degree ∧ (getSign L).degree ≤ 30) ∧
    (0 ≤ (signT L).2 ∧ (signT L).2 ≤ 30) := by
  obtain ⟨hr0, hr1⟩ := jsRem30_bounds (norm_nonneg L)
  exact ⟨signIndex_bounds L, round2_bounds hr0 hr1, round1_bounds hr0 hr1⟩

/-- C4 counterexample: at longitude `29.9951`, the natal module's rounded
degree-in-sign is exactly `30`, refuting the claimed strict bound
`degreeInSign < 30`. -/
theorem getSign_degree_not_lt_30 :
    (getSign (299951/10000)).degree = 30 ∧ ¬ (getSign (299951/10000)).degree < 30 := by
  constructor
  · with_unfolding_all decide
  · with_unfolding_all decide

/-! ## Julian-day conversions

The source `toJD` builds a Julian day from a calendar date via the standard
Gregorian algorithm; `fromJD` inverts a Julian day back to a calendar date.
Both work on JS numbers with `Math.floor`; the embedding keeps the integer
intermediates as `ℤ` (each `Math.floor` result is an integer) and carries the
fractional parts exactly in `ℚ`.  The source `fromJD` formats the result as a
string `YYYY-MM-DD`; the embedding returns the `(year, month, day)` triple that
is interpolated into that string.  An integer mirror (`toJDZ`, `fromJDi`) of
the same algorithms is introduced for the round-trip proof and connected to
the rational embedding by exact floor computations. -/

/-- Source `toJD(y, m, d, h = 0)`: month-shifted Gregorian Julian-day formula,
returning `jd + h/24` with `jd` ending in `.5` (midnight). -/
def toJD (y m d : ℤ) (h : ℚ) : ℚ :=
  (⌊(365.25 : ℚ) * ((((if m ≤ 2 then y - 1 else y) + 4716 : ℤ)) : ℚ)⌋ : ℚ) +
    (⌊(30.6001 : ℚ) * ((((if m ≤ 2 then m + 12 else m) + 1 : ℤ)) : ℚ)⌋ : ℚ) +
    (d : ℚ) + 2 - ((⌊(((if m ≤ 2 then y - 1 else y) : ℤ) : ℚ) / 100⌋ : ℤ) : ℚ) +
    ((⌊((⌊(((if m ≤ 2 then y - 1 else y) : ℤ) : ℚ) / 100⌋ : ℤ) : ℚ) / 4⌋ : ℤ) : ℚ) -
    1524.5 + h / 24

/-- Source `fromJD(jd)`: inverse Gregorian algorithm; returns the calendar
triple `(year, month, day)` that the source interpolates into its date string. -/
def fromJD (jd : ℚ) : ℤ × ℤ × ℤ :=
  let Z : ℤ := ⌊jd + 0.5⌋
  let alpha : ℤ := ⌊((Z : ℚ) - 1867216.25) / 36524.25⌋
  let A : ℤ := if Z < 2299161 then Z else Z + 1 + alpha - ⌊(alpha : ℚ) / 4⌋
  let B : ℤ := A + 1524
  let C : ℤ := ⌊((B : ℚ) - 122.1) / 365.25⌋
  let D : ℤ := ⌊(365.25 : ℚ) * (C : ℚ)⌋
  let E : ℤ := ⌊((B : ℚ) - (D : ℚ)) / 30.6001⌋
  let day : ℤ := ⌊(B : ℚ) - (D : ℚ) - ((⌊(30.6001 : ℚ) * (E : ℚ)⌋ : ℤ) : ℚ)⌋
  let month : ℤ := if E < 14 then E - 1 else E - 13
  let year : ℤ := if month > 2 then C - 4716 else C - 4715
  (year, month, day)

/-- Integer mirror of `fromJD` step `A` (Gregorian century correction). -/
def jdA (Z : ℤ) : ℤ :=
  if Z < 2299161 then Z else Z + 1 + (4*Z - 7468865)/146097 - ((4*Z - 7468865)/146097)/4

/-- Integer mirror of `fromJD` step `B`. -/
def jdB (Z : ℤ) : ℤ := jdA Z + 1524

/-- Integer mirror of `fromJD` step `C` (Julian year count). -/
def jdC (Z : ℤ) : ℤ := (20 * jdB Z - 2442) / 7305

/-- Integer mirror of `fromJD` step `D` (days of whole years). -/
def jdD (Z : ℤ) : ℤ := 1461 * jdC Z / 4

/-- Integer mirror of `fromJD` step `E` (month index). -/
def jdE (Z : ℤ) : ℤ := 10000 * (jdB Z - jdD Z) / 306001

/-- Integer mirror of the `fromJD` month extraction. -/
def jdMonth (Z : ℤ) : ℤ := if jdE Z < 14 then jdE Z - 1 else jdE Z - 13

/-- Integer mirror of `fromJD`, acting on the integer `Z = floor (jd + 0.5)`. -/
def fromJDi (Z : ℤ) : ℤ × ℤ × ℤ :=
  (if jdMonth Z > 2 then jdC Z - 4716 else jdC Z - 4715,
   jdMonth Z,
   jdB Z - jdD Z - 306001 * jdE Z / 10000)

/-- Integer mirror of `toJD` at midnight: the integer `Z` that `fromJD`
recovers from `toJD y m d 0`. -/
def toJDZ (y m d : ℤ) : ℤ :=
  1461 * ((if m ≤ 2 then y - 1 else y) + 4716) / 4 +
    306001 * ((if m ≤ 2 then m + 12 else m) + 1) / 10000 + d + 2 -
    (if m ≤ 2 then y - 1 else y) / 100 + ((if m ≤ 2 then y - 1 else y) / 100) / 4 - 1524

/-- Gregorian leap-year predicate, delimiting the valid-date domain of the
round-trip claim. -/
def isLeap (y : ℤ) : Bool := (y % 4 == 0 && y % 100 != 0) || y % 400 == 0

/-- Number of days of month `m` in year `y` (Gregorian), the valid-date domain
of the round-trip claim. -/
def daysInMonth (y m : ℤ) : ℤ :=
  if m = 2 then (if isLeap y then 29 else 28)
  else if m = 4 ∨ m = 6 ∨ m = 9 ∨ m = 11 then 30
  else 31

theorem cRecover (N F D : ℤ) (h1 : 6635 ≤ N) (h2 : N ≤ 6745)
    (h3 : 0 ≤ 20*F + 20*D - 5*(N%4) - 2442) (h4 : 20*F + 20*D - 5*(N%4) - 2442 < 7305) :
    (20*(1461*N/4 + F + D) - 2442)/7305 = N := by omega

theorem eRecover (M F D : ℤ) (h1 : 306001*(M+1) ≤ 10000*(F + D))
    (h2 : 10000*(F + D) < 306001*(M+2)) : (10000*(F + D))/306001 = M + 1 := by omega

set_option maxHeartbeats 1000000 in
theorem rt_core (n m2 F2 d : ℤ)
    (hn1 : 6635 ≤ n) (hn2 : n ≤ 6745)
    (hm1 : 3 ≤ m2) (hm2 : m2 ≤ 14)
    (hd1 : 1 ≤ d) (hd2 : d ≤ 31)
    (hF2 : F2 = 306001 * (m2 + 1) / 10000)
    (hlow : 0 ≤ 20*F2 + 20*d - 5*(n % 4) - 2442)
    (hhigh : 20*F2 + 20*d - 5*(n % 4) - 2442 < 7305)
    (hEhigh : 10000*(F2 + d) < 306001*(m2+2)) :
    fromJDi (1461*n/4 + F2 + d - 1537) =
      ((if m2 ≤ 12 then n - 4716 else n - 4715), (if m2 ≤ 12 then m2 else m2 - 12), d) := by
  have hElow : 306001*(m2+1) ≤ 10000*(F2 + d) := by omega
  have hF1a : 2423433 ≤ 1461*n/4 := by omega
  have hF1b : 1461*n/4 ≤ 2463675 := by omega
  have hF2a : 122 ≤ F2 := by omega
  have hF2b : F2 ≤ 459 := by omega
  set Z := 1461*n/4 + F2 + d - 1537 with hZ
  have hZ1 : 2421000 ≤ Z := by omega
  have hZ2 : Z ≤ 2465000 := by omega
  have hB : jdB Z = 1461*n/4 + F2 + d := by
    unfold jdB jdA
    rw [if_neg (by omega)]
    omega
  have hC : jdC Z = n := by
    unfold jdC
    rw [hB]
    exact cRecover n F2 d hn1 hn2 hlow hhigh
  have hD : jdD Z = 1461*n/4 := by
    unfold jdD
    rw [hC]
  have hE : jdE Z = m2 + 1 := by
    unfold jdE
    rw [hB, hD]
    have hcancel : 1461*n/4 + F2 + d - 1461*n/4 = F2 + d := by ring
    rw [hcancel]
    exact eRecover m2 F2 d hElow hEhigh
  have hM : jdMonth Z = if m2 ≤ 12 then m2 else m2 - 12 := by
    unfold jdMonth
    rw [hE]
    rcases le_or_lt m2 12 with h12 | h12
    · rw [if_pos (by omega), if_pos (by omega)]
      omega
    · rw [if_neg (by omega), if_neg (by omega)]
      omega
  unfold fromJDi
  rw [hB, hC, hD, hE, hM]
  have hday : 306001 * (m2 + 1) / 10000 = F2 := by omega
  rw [hday]
  simp only [Prod.mk.injEq]
  rcases le_or_lt m2 12 with h12 | h12
  · rw [if_pos (by omega), if_pos (by omega)]
    exact ⟨rfl, trivial, by ring⟩
  · rw [if_neg (by omega), if_neg (by omega)]
    exact ⟨rfl, trivial, by ring⟩

set_option maxHeartbeats 1000000 in
theorem rtLate (y m d : ℤ) (hy1 : 1920 ≤ y) (hy2 : y ≤ 2029)
    (hm1 : 3 ≤ m) (hm2 : m ≤ 12) (hd1 : 1 ≤ d) (hd2 : d ≤ 31)
    (hlow : 0 ≤ 20*(306001*(m+1)/10000) + 20*d - 5*((y+4716) % 4) - 2442)
    (hhigh : 20*(306001*(m+1)/10000) + 20*d - 5*((y+4716) % 4) - 2442 < 7305)
    (hEhigh : 10000*(306001*(m+1)/10000 + d) < 306001*(m+2)) :
    fromJDi (toJDZ y m d) = (y, m, d) := by
  have hZeq : toJDZ y m d = 1461*(y+4716)/4 + 306001*(m+1)/10000 + d - 1537 := by
    unfold toJDZ
    have hc : ¬ (m ≤ 2) := by omega
    rw [if_neg hc, if_neg hc]
    omega
  rw [hZeq]
  have hres := rt_core (y+4716) m (306001*(m+1)/10000) d (by omega) (by omega) hm1
    (by omega) hd1 hd2 rfl hlow hhigh hEhigh
  rw [hres, if_pos hm2, if_pos hm2, show y + 4716 - 4716 = y from by ring]

set_option maxHeartbeats 1000000 in
theorem rtEarly (y m d : ℤ) (hy1 : 1920 ≤ y) (hy2 : y ≤ 2029)
    (hm1 : 1 ≤ m) (hm2 : m ≤ 2) (hd1 : 1 ≤ d) (hd2 : d ≤ 31)
    (hlow : 0 ≤ 20*(306001*(m + 12 + 1)/10000) + 20*d - 5*((y - 1 + 4716) % 4) - 2442)
    (hhigh : 20*(306001*(m + 12 + 1)/10000) + 20*d - 5*((y - 1 + 4716) % 4) - 2442 < 7305)
    (hEhigh : 10000*(306001*(m + 12 + 1)/10000 + d) < 306001*(m + 12 + 2)) :
    fromJDi (toJDZ y m d) = (y, m, d) := by
  have hZeq : toJDZ y m d = 1461*(y - 1 + 4716)/4 + 306001*(m + 12 + 1)/10000 + d - 1537 := by
    unfold toJDZ
    have hc : m ≤ 2 := by omega
    rw [if_pos hc, if_pos hc]
    omega
  rw [hZeq]
  have hres := rt_core (y - 1 + 4716) (m + 12) (306001*(m + 12 + 1)/10000) d (by omega)
    (by omega) (by omega) (by omega) hd1 hd2 rfl hlow hhigh hEhigh
  rw [hres, if_neg (by omega), if_neg (by omega),
    show y - 1 + 4716 - 4715 = y from by ring, show m + 12 - 12 = m from by ring]

set_option maxHeartbeats 2000000 in
theorem rtInt (y m d : ℤ) (h1 : 1920 ≤ y) (h2 : y ≤ 2029) (h3 : 1 ≤ m) (h4 : m ≤ 12)
    (h5 : 1 ≤ d) (h6 : d ≤ daysInMonth y m) : fromJDi (toJDZ y m d) = (y, m, d) := by
  unfold daysInMonth at h6
  interval_cases m
  · exact rtEarly y 1 d h1 h2 (by norm_num) (by norm_num) h5 (by norm_num at h6; omega)
      (by omega) (by omega) (by omega)
  · rcases hL : isLeap y with hf | ht
    all_goals rw [hL] at h6
    all_goals unfold isLeap at hL
    all_goals simp only [Bool.or_eq_true, Bool.and_eq_true, beq_iff_eq, bne_iff_ne,
      Bool.or_eq_false_iff, Bool.and_eq_false_iff, beq_eq_false_iff_ne, bne_eq_false_iff_eq] at hL
    all_goals norm_num at h6
    · exact rtEarly y 2 d h1 h2 (by norm_num) (by norm_num) h5 (by omega) (by omega) (by omega)
        (by omega)
    · exact rtEarly y 2 d h1 h2 (by norm_num) (by norm_num) h5 (by omega) (by omega) (by omega)
        (by omega)
  · exact rtLate y 3 d h1 h2 (by norm_num) (by norm_num) h5 (by norm_num at h6; omega)
      (by omega) (by omega) (by omega)
  · exact rtLate y 4 d h1 h2 (by norm_num) (by norm_num) h5 (by norm_num at h6; omega)
      (by omega) (by omega) (by omega)
  · exact rtLate y 5 d h1 h2 (by norm_num) (by norm_num) h5 (by norm_num at h6; omega)
      (by omega) (by omega) (by omega)
  · exact rtLate y 6 d h1 h2 (by norm_num) (by norm_num) h5 (by norm_num at h6; omega)
      (by omega) (by omega) (by omega)
  · exact rtLate y 7 d h1 h2 (by norm_num) (by norm_num) h5 (by norm_num at h6; omega)
      (by omega) (by omega) (by omega)
  · exact rtLate y 8 d h1 h2 (by norm_num) (by norm_num) h5 (by norm_num at h6; omega)
      (by omega) (by omega) (by omega)
  · exact rtLate y 9 d h1 h2 (by norm_num) (by norm_num) h5 (by norm_num at h6; omega)
      (by omega) (by omega) (by omega)
  · exact rtLate y 10 d h1 h2 (by norm_num) (by norm_num) h5 (by norm_num at h6; omega)
      (by omega) (by omega) (by omega)
  · exact rtLate y 11 d h1 h2 (by norm_num) (by norm_num) h5 (by norm_num at h6; omega)
      (by omega) (by omega) (by omega)
  · exact rtLate y 12 d h1 h2 (by norm_num) (by norm_num) h5 (by norm_num at h6; omega)
      (by omega) (by omega) (by omega)

theorem floorQ_div (a : ℤ) (b : ℕ) : ⌊(a : ℚ) / (b : ℚ)⌋ = a / (b : ℤ) :=
  Rat.floor_intCast_div_natCast a b

theorem floor_q1461 (n : ℤ) : ⌊(365.25 : ℚ) * (n : ℚ)⌋ = 1461 * n / 4 := by
  have h : (365.25 : ℚ) * (n : ℚ) = ((1461 * n : ℤ) : ℚ) / ((4 : ℕ) : ℚ) := by
    rw [eq_div_iff (by norm_num)]
    push_cast
    ring
  rw [h, floorQ_div]
  norm_num

theorem floor_q306001 (n : ℤ) : ⌊(30.6001 : ℚ) * (n : ℚ)⌋ = 306001 * n / 10000 := by
  have h : (30.6001 : ℚ) * (n : ℚ) = ((306001 * n : ℤ) : ℚ) / ((10000 : ℕ) : ℚ) := by
    rw [eq_div_iff (by norm_num)]
    push_cast
    ring
  rw [h, floorQ_div]
  norm_num

theorem floor_alpha (Z : ℤ) :
    ⌊((Z : ℚ) - 1867216.25) / 36524.25⌋ = (4 * Z - 7468865) / 146097 := by
  have h : ((Z : ℚ) - 1867216.25) / 36524.25 = ((4 * Z - 7468865 : ℤ) : ℚ) / ((146097 : ℕ) : ℚ) := by
    push_cast
    rw [div_eq_div_iff (by norm_num) (by norm_num)]
    ring
  rw [h, floorQ_div]
  norm_num

theorem floor_c (B : ℤ) : ⌊((B : ℚ) - 122.1) / 365.25⌋ = (20 * B - 2442) / 7305 := by
  have h : ((B : ℚ) - 122.1) / 365.25 = ((20 * B - 2442 : ℤ) : ℚ) / ((7305 : ℕ) : ℚ) := by
    push_cast
    rw [div_eq_div_iff (by norm_num) (by norm_num)]
    ring
  rw [h, floorQ_div]
  norm_num

theorem floor_q4 (a : ℤ) : ⌊(a : ℚ) / 4⌋ = a / 4 := by
  have h : (a : ℚ) / 4 = (a : ℚ) / ((4 : ℕ) : ℚ) := by norm_num
  rw [h, floorQ_div]
  norm_num

theorem floor_q100 (a : ℤ) : ⌊(a : ℚ) / 100⌋ = a / 100 := by
  have h : (a : ℚ) / 100 = (a : ℚ) / ((100 : ℕ) : ℚ) := by norm_num
  rw [h, floorQ_div]
  norm_num

theorem floor_sub3 (a b c : ℤ) : ⌊(a : ℚ) - (b : ℚ) - (c : ℚ)⌋ = a - b - c := by
  rw [show (a : ℚ) - (b : ℚ) - (c : ℚ) = ((a - b - c : ℤ) : ℚ) by push_cast; ring,
    Int.floor_intCast]

theorem floor_e2 (a b : ℤ) :
    ⌊((a : ℚ) - (b : ℚ)) / 30.6001⌋ = 10000 * (a - b) / 306001 := by
  have h : ((a : ℚ) - (b : ℚ)) / 30.6001 = ((10000 * (a - b) : ℤ) : ℚ) / ((306001 : ℕ) : ℚ) := by
    push_cast
    rw [div_eq_div_iff (by norm_num) (by norm_num)]
    ring
  rw [h, floorQ_div]
  norm_num

/-- The rational source `fromJD` agrees with its integer mirror on the integer
`Z = floor (jd + 0.5)` that it extracts first. -/
theorem fromJD_eq (q : ℚ) : fromJD q = fromJDi ⌊q + 0.5⌋ := by
  simp only [fromJD, fromJDi, jdMonth, jdE, jdD, jdC, jdB, jdA, floor_alpha, floor_q4,
    floor_c, floor_q1461, floor_q306001, floor_e2, floor_sub3]

/-- The rational source `toJD` at midnight determines exactly the integer `Z`
of the mirror. -/
theorem toJD_floor (y m d : ℤ) : ⌊toJD y m d 0 + 0.5⌋ = toJDZ y m d := by
  unfold toJD toJDZ
  rw [floor_q1461, floor_q306001, floor_q100, floor_q4]
  generalize 1461 * ((if m ≤ 2 then y - 1 else y) + 4716) / 4 = F1
  generalize 306001 * ((if m ≤ 2 then m + 12 else m) + 1) / 10000 = F2
  generalize hA : (if m ≤ 2 then y - 1 else y) / 100 = A
  generalize A / 4 = A4
  rw [show (F1 : ℚ) + (F2 : ℚ) + (d : ℚ) + 2 - (A : ℚ) + (A4 : ℚ) - 1524.5 + (0 : ℚ) / 24 + 0.5
      = ((F1 + F2 + d + 2 - A + A4 - 1524 : ℤ) : ℚ) from by push_cast; ring,
    Int.floor_intCast]

/-- C6: for every valid Gregorian calendar date between 1920-01-01 and
2029-12-31, converting to a Julian day with `toJD` and back with `fromJD`
returns exactly the original `(year, month, day)`. -/
theorem calendar_roundtrip (y m d : ℤ) (h1 : 1920 ≤ y) (h2 : y ≤ 2029) (h3 : 1 ≤ m)
    (h4 : m ≤ 12) (h5 : 1 ≤ d) (h6 : d ≤ daysInMonth y m) :
    fromJD (toJD y m d 0) = (y, m, d) := by
  rw [fromJD_eq, toJD_floor]
  exact rtInt y m d h1 h2 h3 h4 h5 h6

/-- Witness for C6: the round trip at the concrete date 2025-06-15. -/
theorem calendar_roundtrip_witness :
    ((1920:ℤ) ≤ 2025 ∧ (2025:ℤ) ≤ 2029 ∧ (1:ℤ) ≤ 6 ∧ (6:ℤ) ≤ 12 ∧ (1:ℤ) ≤ 15 ∧
      (15:ℤ) ≤ daysInMonth 2025 6) ∧
    fromJD (toJD 2025 6 15 0) = (2025, 6, 15) :=
  ⟨⟨by norm_num, by norm_num, by norm_num, by norm_num, by norm_num, by decide⟩,
   calendar_roundtrip 2025 6 15 (by norm_num) (by norm_num) (by norm_num) (by norm_num)
     (by norm_num) (by decide)⟩

/-! ## Aspect finding -/

/-- One entry of the `ASPECTS` table: name, target angle, orb, symbol, nature. -/
structure AspectData where
  aname : String
  angle : ℚ
  orb : ℚ
  symbol : String
  nature : String
deriving DecidableEq

/-- The aspect table of the natal module, in its declared (insertion) order. -/
def ASPECTS : List AspectData :=
  [⟨"conjunction", 0, 8, "☌", "major"⟩,
   ⟨"sextile", 60, 4, "⚹", "harmonious"⟩,
   ⟨"square", 90, 6, "□", "challenging"⟩,
   ⟨"trine", 120, 6, "△", "harmonious"⟩,
   ⟨"opposition", 180, 8, "☍", "challenging"⟩]

/-- The record returned by a successful `findAspect`. -/
structure AspectHit where
  aspect : String
  symbol : String
  nature : String
  orb : ℚ
  exactHit : Bool
deriving DecidableEq

/-- The record the source builds for a matching aspect: rounded deviation in
`orb`, and `exact` flag (`exactHit` here) true when the raw deviation is
below one degree. -/
def mkAspectHit (a : AspectData) (diff : ℚ) : AspectHit :=
  ⟨a.aname, a.symbol, a.nature, round2 diff, decide (diff < 1)⟩

/-- The separation computed at the top of `findAspect`: absolute difference
folded to at most 180 degrees. -/
def shortestSep (lon1 lon2 : ℚ) : ℚ :=
  if |lon1 - lon2| > 180 then 360 - |lon1 - lon2| else |lon1 - lon2|

/-- Source `findAspect(lon1, lon2)`: iterate the aspect table in order and
return the record of the first entry whose deviation is within its orb. -/
def findAspect (lon1 lon2 : ℚ) : Option AspectHit :=
  ASPECTS.findSome? (fun a =>
    if |shortestSep lon1 lon2 - a.angle| ≤ a.orb
    then some (mkAspectHit a |shortestSep lon1 lon2 - a.angle|) else none)

/-- Modelled from the spec's words for comparison: take the first table entry
(in canonical order) whose `|separation - targetAngle| <= orb` via `find?`,
and build the result fields as the spec describes them. -/
def findAspectSpec (lon1 lon2 : ℚ) : Option AspectHit :=
  (ASPECTS.find? (fun a => decide (|shortestSep lon1 lon2 - a.angle| ≤ a.orb))).map
    (fun a =>
      { aspect := a.aname, symbol := a.symbol, nature := a.nature,
        orb := round2 |shortestSep lon1 lon2 - a.angle|,
        exactHit := decide (|shortestSep lon1 lon2 - a.angle| < 1) })

theorem findSome_eq_find (f : AspectData → ℚ) (l : List AspectData) :
    List.findSome? (fun a => if f a ≤ a.orb then some (mkAspectHit a (f a)) else none) l
      = (List.find? (fun a => decide (f a ≤ a.orb)) l).map (fun a => mkAspectHit a (f a)) := by
  induction l with
  | nil => rfl
  | cons a l ih =>
      by_cases h : f a ≤ a.orb
      · simp [List.findSome?_cons, List.find?_cons, h]
      · simp [List.findSome?_cons, List.find?_cons, h, ih]

/-- C5: the aspect table is in the canonical order conjunction, sextile,
square, trine, opposition, and `findAspect` returns exactly the first entry
(in that order) whose `|separation - targetAngle| <= orb`, with the deviation
field rounded to two decimals and the exact flag set iff the raw deviation is
below one degree; it returns `none` when no entry matches. -/
theorem findAspect_first_match (lon1 lon2 : ℚ) :
    ASPECTS.map AspectData.aname =
      ["conjunction", "sextile", "square", "trine", "opposition"] ∧
    findAspect lon1 lon2 = findAspectSpec lon1 lon2 := by
  refine ⟨rfl, ?_⟩
  unfold findAspect findAspectSpec
  rw [findSome_eq_find (fun a => |shortestSep lon1 lon2 - a.angle|) ASPECTS]
  rfl

/-! ## Synastry compatibility index

The scoring part of `calculateSynastry`: cross-aspects are collected by
running `findAspect` over every (planet of chart 1, planet of chart 2) pair in
loop order, and the compatibility index is
`Math.round((harmoniousCount + majorConjunctions * 0.5) / (crossAspects.length || 1) * 100)`. -/

/-- The cross-aspect list of `calculateSynastry`, over the two charts' planet
longitudes in loop order. -/
def crossAspects (ps1 ps2 : List ℚ) : List AspectHit :=
  ps1.flatMap (fun l1 => ps2.filterMap (fun l2 => findAspect l1 l2))

/-- The compatibility index computed in `calculateSynastry`, with the JS
truthiness fallback `crossAspects.length || 1` in the denominator. -/
def compatibilityIndex (ps1 ps2 : List ℚ) : ℤ :=
  let ca := crossAspects ps1 ps2
  let harmoniousCount := (ca.filter (fun a => a.nature = "harmonious")).length
  let majorConjunctions := (ca.filter (fun a => a.aspect = "conjunction")).length
  jsRound ((((harmoniousCount : ℚ) + (majorConjunctions : ℚ) * 0.5) /
    (if ca.length = 0 then 1 else (ca.length : ℚ))) * 100)

/-- C9: the synastry compatibility index equals
`round((harmonious + 0.5 * conjunctions) / total * 100)` over the cross-aspect
list, and equals `0` when there are no cross-aspects (the `|| 1` fallback
avoids any division by zero). -/
theorem compatibility_index_formula (ps1 ps2 : List ℚ) :
    compatibilityIndex ps1 ps2 =
      if crossAspects ps1 ps2 = [] then 0
      else
        jsRound
          ((((crossAspects ps1 ps2).countP (fun a => a.nature = "harmonious") : ℚ) +
              (1/2) * ((crossAspects ps1 ps2).countP (fun a => a.aspect = "conjunction") : ℚ)) /
            ((crossAspects ps1 ps2).length : ℚ) * 100) := by
  unfold compatibilityIndex
  dsimp only
  rcases hca : crossAspects ps1 ps2 with _ | ⟨a, l⟩
  · norm_num [jsRound]
  · rw [if_neg (by simp)]
    have h1 : ((a :: l).filter (fun x => x.nature = "harmonious")).length
        = (a :: l).countP (fun x => decide (x.nature = "harmonious")) := by
      rw [List.countP_eq_length_filter]
    have h2 : ((a :: l).filter (fun x => x.aspect = "conjunction")).length
        = (a :: l).countP (fun x => decide (x.aspect = "conjunction")) := by
      rw [List.countP_eq_length_filter]
    rw [h1, h2]
    congr 1
    ring

/-! ## Retrograde-station scan

Both modules run the same loop per scanned body: sample the body's longitude
on a fixed step, classify the per-step delta (unwrapped across the 0/360
boundary) as direct or retrograde, and emit a station event at every
direction change; a direct-to-retrograde change records the sample's Julian
day, and the next retrograde-to-direct change emits an end event whose
duration is the rounded Julian-day difference.  The loop body is embedded
once, generic in the two event labels and the sign-decomposition function;
the natal module instantiates it with `retrograde_start`/`retrograde_end` and
`getSign`, the transits module with `retro_start`/`retro_end` and `signT`. -/

/-- A retrograde station event; `duration` is the paired duration carried only
by end events (`duration_days` in the natal module, `days` in the transits
module). -/
structure RetroEvent where
  rtype : String
  body : String
  date : ℤ × ℤ × ℤ
  sign : String
  degree : ℚ
  jd : ℚ
  duration : Option ℤ
deriving DecidableEq

/-- Loop state of the scan: previous longitude `pL`, previous direction `pD`,
remembered start Julian day `sJd`, and the events emitted so far. -/
structure RetroState where
  pL : Option ℚ
  pD : Option String
  sJd : Option ℚ
  evs : List RetroEvent
deriving DecidableEq

/-- The unwrapping of one step's signed delta across the 0/360 boundary:
`m -= 360` if above 180, then `m += 360` if below -180. -/
def unwrapDelta (x : ℚ) : ℚ :=
  if (if x > 180 then x - 360 else x) < -180 then (if x > 180 then x - 360 else x) + 360
  else (if x > 180 then x - 360 else x)

/-- The classification `m > 0 ? "direct" : "retrograde"` of an unwrapped step. -/
def dirOf (pL l : ℚ) : String :=
  if unwrapDelta (l - pL) > 0 then "direct" else "retrograde"

/-- The event record pushed by the scan loop: label, body, formatted date,
sign decomposition of the longitude, rounded Julian day, optional duration. -/
def mkRetroEvent (label body : String) (jd : ℚ) (sd : String × ℚ)
    (dur : Option ℤ) : RetroEvent :=
  ⟨label, body, fromJD jd, sd.1, sd.2, round2 jd, dur⟩

/-- One iteration of the scan loop, generic in the event labels and sign
decomposition. -/
def retroStepG (startLabel endLabel : String) (signOf : ℚ → String × ℚ)
    (body : String) (lonf : ℚ → ℚ) (st : RetroState) (jd : ℚ) : RetroState :=
  let l := lonf jd
  match st.pL with
  | none => { st with pL := some l }
  | some pL =>
    let d := dirOf pL l
    let st1 :=
      match st.pD with
      | none => st
      | some pD =>
        if d ≠ pD then
          if d = "retrograde" then
            { st with
                sJd := some jd,
                evs := st.evs ++ [mkRetroEvent startLabel body jd (signOf l) none] }
          else
            match st.sJd with
            | some s0 =>
              { st with
                  sJd := none,
                  evs := st.evs ++ [mkRetroEvent endLabel body jd (signOf l)
                    (some (jsRound (jd - s0)))] }
            | none => st
        else st
    { st1 with
        pL := some l,
        pD := some d }

/-- The natal module's loop body (`calcRetrogrades`). -/
def retroStep (body : String) (lonf : ℚ → ℚ) (st : RetroState) (jd : ℚ) : RetroState :=
  retroStepG "retrograde_start" "retrograde_end"
    (fun l => ((getSign l).sign, (getSign l).degree)) body lonf st jd

/-- The transits module's loop body (`retrogrades`). -/
def retroStepT (body : String) (lonf : ℚ → ℚ) (st : RetroState) (jd : ℚ) : RetroState :=
  retroStepG "retro_start" "retro_end" signT body lonf st jd

/-- Events emitted by the natal scan loop over an explicit sample list. -/
def scanEvents (body : String) (lonf : ℚ → ℚ) (jds : List ℚ) : List RetroEvent :=
  (jds.foldl (retroStep body lonf) ⟨none, none, none, []⟩).evs

/-- Events emitted by the transits scan loop over an explicit sample list. -/
def scanEventsT (body : String) (lonf : ℚ → ℚ) (jds : List ℚ) : List RetroEvent :=
  (jds.foldl (retroStepT body lonf) ⟨none, none, none, []⟩).evs

/-- The arithmetic sample grid of the loop `for (jd = s; jd < e; jd += st)`. -/
def sampleJds (s st : ℚ) (n : ℕ) : List ℚ := (List.range n).map (fun i : ℕ => s + (i : ℚ) * st)

/-- The number of iterations of that loop for a positive step. -/
def stepCount (s e st : ℚ) : ℕ := (⌈(e - s) / st⌉).toNat

/-- The bodies scanned by the natal module's `calcRetrogrades`. -/
def RETRO_BODIES : List String :=
  ["mercury", "venus", "mars", "jupiter", "saturn", "uranus", "neptune", "pluto"]

/-- The bodies scanned by the transits module's `retrogrades`. -/
def RETRO_BODIES_T : List String :=
  ["mercury", "venus", "mars", "jupiter", "saturn", "uranus", "neptune"]

/-- Display name of a body key, `PLANETS[k].name`. -/
def planetName (k : String) : String :=
  match PLANETS.lookup k with
  | some p => p.pname
  | none => ""

/-- Source `calcRetrogrades(year)` of the natal module: scan each body over
the year's Julian-day range at its per-body step and sort events by `jd`. -/
def calcRetrogrades (year : ℤ) : List RetroEvent :=
  (RETRO_BODIES.flatMap (fun k =>
    scanEvents (planetName k) (fun jd => lon k jd) (sampleJds (toJD year 1 1 0)
      (if k = "mercury" ∨ k = "venus" then 0.5 else 1)
      (stepCount (toJD year 1 1 0) (toJD (year + 1) 1 1 0)
        (if k = "mercury" ∨ k = "venus" then 0.5 else 1))))).mergeSort
    (fun a b => a.jd ≤ b.jd)

/-- Source `retrogrades(year)` of the transits module: same scan over seven
bodies with its own event labels and one-decimal sign decomposition. -/
def retrogradesT (year : ℤ) : List RetroEvent :=
  (RETRO_BODIES_T.flatMap (fun k =>
    scanEventsT (planetName k) (fun jd => lon k jd) (sampleJds (toJD year 1 1 0)
      (if k = "mercury" ∨ k = "venus" then 0.5 else 1)
      (stepCount (toJD year 1 1 0) (toJD (year + 1) 1 1 0)
        (if k = "mercury" ∨ k = "venus" then 0.5 else 1))))).mergeSort
    (fun a b => a.jd ≤ b.jd)

theorem unwrap_small {m : ℚ} (h1 : -180 ≤ m) (h2 : m ≤ 180) : unwrapDelta m = m := by
  unfold unwrapDelta
  rw [if_neg (by linarith : ¬ m > 180), if_neg (by linarith : ¬ m < -180)]

theorem unwrap_wrapneg {m : ℚ} (h1 : -360 < m) (h2 : m < -180) : unwrapDelta m = m + 360 := by
  unfold unwrapDelta
  rw [if_neg (by linarith : ¬ m > 180), if_pos h2]

/-- One step of a linearly advancing normalized longitude, with step below
180 degrees, is always classified as direct. -/
theorem dirOf_norm_add (x δ : ℚ) (h0 : 0 < δ) (h1 : δ < 180) :
    dirOf (norm x) (norm (x + δ)) = "direct" := by
  have hx := norm_eq_floor x
  have hy := norm_eq_floor (x + δ)
  have hj0 : ⌊x / 360⌋ ≤ ⌊(x + δ) / 360⌋ := by
    apply Int.floor_le_floor
    apply div_le_div_of_nonneg_right ?watch ?hc
    case watch => linarith
    case hc => norm_num
  have hj1 : ⌊(x + δ) / 360⌋ ≤ ⌊x / 360⌋ + 1 := by
    have hle : (x + δ) / 360 ≤ x / 360 + 1 := by
      rw [div_add_one (by norm_num : (360:ℚ) ≠ 0)]
      apply div_le_div_of_nonneg_right ?wa ?hc
      case wa => linarith
      case hc => norm_num
    calc ⌊(x + δ) / 360⌋ ≤ ⌊x / 360 + (1:ℤ)⌋ := Int.floor_le_floor (by push_cast; linarith)
      _ = ⌊x / 360⌋ + 1 := Int.floor_add_int _ _
  unfold dirOf
  rcases eq_or_lt_of_le hj0 with hj | hj
  · have harg : norm (x + δ) - norm x = δ := by
      rw [hx, hy, ← hj]
      ring
    rw [harg, unwrap_small (by linarith) (by linarith), if_pos h0]
  · have hj2 : ⌊(x + δ) / 360⌋ = ⌊x / 360⌋ + 1 := by omega
    have harg : norm (x + δ) - norm x = δ - 360 := by
      rw [hx, hy, hj2]
      push_cast
      ring
    rw [harg, unwrap_wrapneg (by linarith) (by linarith), show δ - 360 + 360 = δ from by ring,
      if_pos h0]

/-- A scan over samples whose consecutive direction is always `direct` never
changes direction, and therefore emits no event: the final state carries only
the last longitude and the constant direction. -/
theorem scan_all_direct (sl el : String) (sf : ℚ → String × ℚ) (body : String)
    (lonf : ℚ → ℚ) (s st : ℚ)
    (hdir : ∀ x : ℚ, dirOf (lonf x) (lonf (x + st)) = "direct") :
    ∀ n : ℕ,
      (sampleJds s st n).foldl (retroStepG sl el sf body lonf) ⟨none, none, none, []⟩ =
        ⟨if n = 0 then none else some (lonf (s + ((n : ℚ) - 1) * st)),
         if n ≤ 1 then none else some "direct", none, []⟩ := by
  intro n
  induction n with
  | zero => simp [sampleJds]
  | succ n ih =>
      have hsamp : sampleJds s st (n + 1) = sampleJds s st n ++ [s + (n : ℚ) * st] := by
        unfold sampleJds
        rw [List.range_succ, List.map_append]
        rfl
      rw [hsamp, List.foldl_append, ih]
      rcases Nat.eq_zero_or_pos n with hn | hn
      · subst hn
        norm_num [retroStepG]
      · have hn0 : ¬ (n = 0) := by omega
        rw [if_neg hn0]
        have harg : s + (n : ℚ) * st = (s + ((n : ℚ) - 1) * st) + st := by ring
        simp only [List.foldl_cons, List.foldl_nil, retroStepG]
        rw [harg, hdir (s + ((n : ℚ) - 1) * st)]
        rcases Nat.lt_or_ge n 2 with hn2 | hn2
        · have hone : n = 1 := by omega
          subst hone
          norm_num
        · rw [if_neg (by omega : ¬ n ≤ 1)]
          norm_num [show ¬ (n + 1 = 0) from by omega, show ¬ (n + 1 ≤ 1) from by omega]
          rw [harg]

theorem lon_linear (k : String) (p : PlanetData) (hk : PLANETS.lookup k = some p) (jd : ℚ) :
    lon k jd = norm (p.j2000 + p.motion * (jd - J2000)) := by
  unfold lon
  rw [hk]

/-- Every step of every mean-longitude body is classified as direct, because
the mean motion is positive and the per-step advance is far below 180. -/
theorem dir_lon_direct (k : String) (p : PlanetData) (hk : PLANETS.lookup k = some p)
    (st : ℚ) (h0 : 0 < p.motion * st) (h1 : p.motion * st < 180) (x : ℚ) :
    dirOf (lon k x) (lon k (x + st)) = "direct" := by
  rw [lon_linear k p hk, lon_linear k p hk,
    show p.j2000 + p.motion * (x + st - J2000)
      = (p.j2000 + p.motion * (x - J2000)) + p.motion * st from by ring]
  exact dirOf_norm_add _ _ h0 h1

theorem scanEvents_lon_empty (body k : String) (p : PlanetData)
    (hk : PLANETS.lookup k = some p) (s st : ℚ) (n : ℕ)
    (h0 : 0 < p.motion * st) (h1 : p.motion * st < 180) :
    scanEvents body (fun jd => lon k jd) (sampleJds s st n) = [] := by
  unfold scanEvents retroStep
  rw [scan_all_direct _ _ _ body _ s st (dir_lon_direct k p hk st h0 h1) n]

theorem scanEventsT_lon_empty (body k : String) (p : PlanetData)
    (hk : PLANETS.lookup k = some p) (s st : ℚ) (n : ℕ)
    (h0 : 0 < p.motion * st) (h1 : p.motion * st < 180) :
    scanEventsT body (fun jd => lon k jd) (sampleJds s st n) = [] := by
  unfold scanEventsT retroStepT
  rw [scan_all_direct _ _ _ body _ s st (dir_lon_direct k p hk st h0 h1) n]

theorem calcRetrogrades_nil (year : ℤ) : calcRetrogrades year = [] := by
  unfold calcRetrogrades
  simp only [RETRO_BODIES, List.flatMap_cons, List.flatMap_nil]
  rw [scanEvents_lon_empty _ "mercury" ⟨"Mercury", 4.092, 252.25⟩ rfl _ _ _
      (by split <;> norm_num) (by split <;> norm_num),
    scanEvents_lon_empty _ "venus" ⟨"Venus", 1.602, 181.98⟩ rfl _ _ _
      (by split <;> norm_num) (by split <;> norm_num),
    scanEvents_lon_empty _ "mars" ⟨"Mars", 0.524, 355.45⟩ rfl _ _ _
      (by split <;> norm_num) (by split <;> norm_num),
    scanEvents_lon_empty _ "jupiter" ⟨"Jupiter", 0.0831, 34.40⟩ rfl _ _ _
      (by split <;> norm_num) (by split <;> norm_num),
    scanEvents_lon_empty _ "saturn" ⟨"Saturn", 0.0335, 49.94⟩ rfl _ _ _
      (by split <;> norm_num) (by split <;> norm_num),
    scanEvents_lon_empty _ "uranus" ⟨"Uranus", 0.0117, 313.23⟩ rfl _ _ _
      (by split <;> norm_num) (by split <;> norm_num),
    scanEvents_lon_empty _ "neptune" ⟨"Neptune", 0.006, 304.88⟩ rfl _ _ _
      (by split <;> norm_num) (by split <;> norm_num),
    scanEvents_lon_empty _ "pluto" ⟨"Pluto", 0.004, 238.96⟩ rfl _ _ _
      (by split <;> norm_num) (by split <;> norm_num)]
  simp

theorem retrogradesT_nil (year : ℤ) : retrogradesT year = [] := by
  unfold retrogradesT
  simp only [RETRO_BODIES_T, List.flatMap_cons, List.flatMap_nil]
  rw [scanEventsT_lon_empty _ "mercury" ⟨"Mercury", 4.092, 252.25⟩ rfl _ _ _
      (by split <;> norm_num) (by split <;> norm_num),
    scanEventsT_lon_empty _ "venus" ⟨"Venus", 1.602, 181.98⟩ rfl _ _ _
      (by split <;> norm_num) (by split <;> norm_num),
    scanEventsT_lon_empty _ "mars" ⟨"Mars", 0.524, 355.45⟩ rfl _ _ _
      (by split <;> norm_num) (by split <;> norm_num),
    scanEventsT_lon_empty _ "jupiter" ⟨"Jupiter", 0.0831, 34.40⟩ rfl _ _ _
      (by split <;> norm_num) (by split <;> norm_num),
    scanEventsT_lon_empty _ "saturn" ⟨"Saturn", 0.0335, 49.94⟩ rfl _ _ _
      (by split <;> norm_num) (by split <;> norm_num),
    scanEventsT_lon_empty _ "uranus" ⟨"Uranus", 0.0117, 313.23⟩ rfl _ _ _
      (by split <;> norm_num) (by split <;> norm_num),
    scanEventsT_lon_empty _ "neptune" ⟨"Neptune", 0.006, 304.88⟩ rfl _ _ _
      (by split <;> norm_num) (by split <;> norm_num)]
  simp

/-- C2: for every year, the retrograde scan of both modules returns the empty
event list: every scanned body's mean longitude advances linearly with
positive daily motion, so every per-step unwrapped delta is positive, the
direction is `direct` at every sample, and no station event is ever emitted. -/
theorem retro_scan_always_empty (year : ℤ) :
    calcRetrogrades year = [] ∧ retrogradesT year = [] :=
  ⟨calcRetrogrades_nil year, retrogradesT_nil year⟩

/-! ## Retrograde pairing behavior of the scan loop -/

/-- The last element of a sample run, with the preceding sample as fallback. -/
def lastD : List ℚ → ℚ → ℚ
  | [], p => p
  | r :: rs, _ => lastD rs r

/-- The direction classification sequence of consecutive samples. -/
def dirs (lonf : ℚ → ℚ) : List ℚ → List String
  | [] => []
  | [_] => []
  | a :: b :: rest => dirOf (lonf a) (lonf b) :: dirs lonf (b :: rest)

theorem dirs_cons (lonf : ℚ → ℚ) (a b : ℚ) (rest : List ℚ) :
    dirs lonf (a :: b :: rest) = dirOf (lonf a) (lonf b) :: dirs lonf (b :: rest) := rfl

/-- A step whose direction matches the current one changes neither the event
list nor the remembered start. -/
theorem step_same (sl el : String) (sf : ℚ → String × ℚ) (body : String) (lonf : ℚ → ℚ)
    (prev jd : ℚ) (pD : Option String) (sJd : Option ℚ) (evs : List RetroEvent)
    (hpd : pD = none ∨ pD = some (dirOf (lonf prev) (lonf jd))) :
    retroStepG sl el sf body lonf ⟨some (lonf prev), pD, sJd, evs⟩ jd
      = ⟨some (lonf jd), some (dirOf (lonf prev) (lonf jd)), sJd, evs⟩ := by
  rcases hpd with h | h
  all_goals subst h
  · rfl
  · simp only [retroStepG]
    rw [if_neg (by simp)]

/-- A direct-to-retrograde step emits one start event and records the sample. -/
theorem step_to_retro (sl el : String) (sf : ℚ → String × ℚ) (body : String) (lonf : ℚ → ℚ)
    (prev jd : ℚ) (sJd : Option ℚ) (evs : List RetroEvent)
    (hd : dirOf (lonf prev) (lonf jd) = "retrograde") :
    retroStepG sl el sf body lonf ⟨some (lonf prev), some "direct", sJd, evs⟩ jd
      = ⟨some (lonf jd), some "retrograde", some jd,
         evs ++ [mkRetroEvent sl body jd (sf (lonf jd)) none]⟩ := by
  simp only [retroStepG, hd]
  rw [if_pos (by decide : ("retrograde" : String) ≠ "direct"), if_pos trivial]

/-- A retrograde-to-direct step with a remembered start emits one end event
whose duration is the rounded Julian-day difference. -/
theorem step_to_direct (sl el : String) (sf : ℚ → String × ℚ) (body : String) (lonf : ℚ → ℚ)
    (prev jd s0 : ℚ) (evs : List RetroEvent)
    (hd : dirOf (lonf prev) (lonf jd) = "direct") :
    retroStepG sl el sf body lonf ⟨some (lonf prev), some "retrograde", some s0, evs⟩ jd
      = ⟨some (lonf jd), some "direct", none,
         evs ++ [mkRetroEvent el body jd (sf (lonf jd)) (some (jsRound (jd - s0)))]⟩ := by
  simp only [retroStepG, hd]
  rw [if_pos (by decide : ("direct" : String) ≠ "retrograde"),
    if_neg (by decide : ¬ (("direct" : String) = "retrograde"))]

/-- Folding the loop over a run of samples of one constant direction leaves
`sJd` and the event list untouched and carries the last longitude forward. -/
theorem run_const (sl el : String) (sf : ℚ → String × ℚ) (body : String) (lonf : ℚ → ℚ)
    (dir : String) (tail : List ℚ) (dtail : List String) :
    ∀ (run : List ℚ) (prev : ℚ) (pD : Option String) (sJd : Option ℚ) (evs : List RetroEvent),
      dirs lonf (prev :: (run ++ tail)) = List.replicate run.length dir ++ dtail →
      (pD = none ∨ pD = some dir) →
      (run ++ tail).foldl (retroStepG sl el sf body lonf) ⟨some (lonf prev), pD, sJd, evs⟩
          = tail.foldl (retroStepG sl el sf body lonf)
              ⟨some (lonf (lastD run prev)), if run.isEmpty then pD else some dir, sJd, evs⟩
        ∧ dirs lonf (lastD run prev :: tail) = dtail := by
  intro run
  induction run with
  | nil =>
      intro prev pD sJd evs hdirs hpd
      refine ⟨rfl, ?_⟩
      simpa using hdirs
  | cons r rs ih =>
      intro prev pD sJd evs hdirs hpd
      rw [List.cons_append, dirs_cons, List.length_cons, List.replicate_succ,
        List.cons_append] at hdirs
      have hinj := List.cons.injEq (dirOf (lonf prev) (lonf r)) (dirs lonf (r :: (rs ++ tail)))
        dir (List.replicate rs.length dir ++ dtail) ▸ hdirs
      have hd : dirOf (lonf prev) (lonf r) = dir := hinj.1
      have htl : dirs lonf (r :: (rs ++ tail)) = List.replicate rs.length dir ++ dtail := hinj.2
      rw [List.cons_append, List.foldl_cons,
        step_same sl el sf body lonf prev r pD sJd evs (by rw [hd] at *; exact hpd), hd]
      obtain ⟨hfold, hrest⟩ := ih r (some dir) sJd evs htl (Or.inr rfl)
      refine ⟨?_, hrest⟩
      rw [hfold]
      have hpd2 : (if rs.isEmpty then some dir else some dir) = some dir := by
        split
        all_goals rfl
      rw [hpd2, if_neg (by simp)]
      rfl

/-- Running the scan over an initial sample, a nonempty direct run, and a
retrograde run starting at `jB` emits exactly the start event at `jB` and
reaches the retrograde state remembering `jB`. -/
theorem scan_start_state (sl el : String) (sf : ℚ → String × ℚ) (body : String)
    (lonf : ℚ → ℚ) (j0 jB : ℚ) (A B : List ℚ) (tail : List ℚ) (dtail : List String)
    (hA : A ≠ [])
    (hd : dirs lonf (j0 :: (A ++ jB :: (B ++ tail))) =
      List.replicate A.length "direct" ++
        (List.replicate (B.length + 1) "retrograde" ++ dtail)) :
    (j0 :: (A ++ jB :: (B ++ tail))).foldl (retroStepG sl el sf body lonf) ⟨none, none, none, []⟩
        = tail.foldl (retroStepG sl el sf body lonf)
            ⟨some (lonf (lastD B jB)), some "retrograde", some jB,
             [mkRetroEvent sl body jB (sf (lonf jB)) none]⟩
      ∧ dirs lonf (lastD B jB :: tail) = dtail := by
  obtain ⟨a, A2, rfl⟩ := List.exists_cons_of_ne_nil hA
  rw [List.foldl_cons]
  have h0 : retroStepG sl el sf body lonf ⟨none, none, none, []⟩ j0
      = ⟨some (lonf j0), none, none, []⟩ := rfl
  rw [h0]
  obtain ⟨hf1, hdir1⟩ := run_const sl el sf body lonf "direct" (jB :: (B ++ tail))
    (List.replicate (B.length + 1) "retrograde" ++ dtail) (a :: A2) j0 none none [] hd
    (Or.inl rfl)
  rw [hf1, if_neg (by simp)]
  rw [List.replicate_succ, List.cons_append, dirs_cons] at hdir1
  have hinj := List.cons.injEq (dirOf (lonf (lastD (a :: A2) j0)) (lonf jB))
    (dirs lonf (jB :: (B ++ tail))) "retrograde"
    (List.replicate B.length "retrograde" ++ dtail) ▸ hdir1
  rw [List.foldl_cons, step_to_retro sl el sf body lonf (lastD (a :: A2) j0) jB none [] hinj.1]
  simp only [List.nil_append]
  obtain ⟨hf2, hdir2⟩ := run_const sl el sf body lonf "retrograde" tail dtail B jB
    (some "retrograde") (some jB) [mkRetroEvent sl body jB (sf (lonf jB)) none] hinj.2
    (Or.inr rfl)
  rw [hf2, show (if B.isEmpty then some "retrograde" else some "retrograde")
    = some "retrograde" from by split <;> rfl]
  exact ⟨rfl, hdir2⟩

/-- C8 (amended): in the natal module's retrograde scan, a longitude sequence
whose direction runs are direct, then retrograde starting at sample `jB`,
then direct again starting at sample `jC`, yields exactly one start/end pair:
the start event at `jB`, and the end event at `jC` whose paired duration is
the Julian-day difference `jC - jB` rounded to the nearest whole day (the
source applies `Math.round`, so a half-integer difference is rounded, not
reported exactly); a start with no following retrograde-to-direct change
inside the scan emits no end event. -/
theorem retrograde_pairing (body : String) (lonf : ℚ → ℚ) (j0 jB jC : ℚ)
    (A B C : List ℚ) (hA : A ≠ []) :
    (dirs lonf (j0 :: (A ++ jB :: (B ++ jC :: C))) =
        List.replicate A.length "direct" ++ List.replicate (B.length + 1) "retrograde" ++
          List.replicate (C.length + 1) "direct" →
      scanEvents body lonf (j0 :: (A ++ jB :: (B ++ jC :: C))) =
        [mkRetroEvent "retrograde_start" body jB
           ((getSign (lonf jB)).sign, (getSign (lonf jB)).degree) none,
         mkRetroEvent "retrograde_end" body jC
           ((getSign (lonf jC)).sign, (getSign (lonf jC)).degree)
           (some (jsRound (jC - jB)))]) ∧
    (dirs lonf (j0 :: (A ++ jB :: B)) =
        List.replicate A.length "direct" ++ List.replicate (B.length + 1) "retrograde" →
      scanEvents body lonf (j0 :: (A ++ jB :: B)) =
        [mkRetroEvent "retrograde_start" body jB
           ((getSign (lonf jB)).sign, (getSign (lonf jB)).degree) none]) := by
  constructor
  · intro hd
    unfold scanEvents retroStep
    obtain ⟨hf, hdir⟩ := scan_start_state "retrograde_start" "retrograde_end"
      (fun l => ((getSign l).sign, (getSign l).degree)) body lonf j0 jB A B (jC :: C)
      (List.replicate (C.length + 1) "direct") hA (by rw [hd, List.append_assoc])
    rw [hf]
    rw [List.replicate_succ, dirs_cons] at hdir
    have hinj := List.cons.injEq (dirOf (lonf (lastD B jB)) (lonf jC)) (dirs lonf (jC :: C))
      "direct" (List.replicate C.length "direct") ▸ hdir
    rw [List.foldl_cons, step_to_direct "retrograde_start" "retrograde_end"
      (fun l => ((getSign l).sign, (getSign l).degree)) body lonf (lastD B jB) jC jB
      [mkRetroEvent "retrograde_start" body jB
        ((getSign (lonf jB)).sign, (getSign (lonf jB)).degree) none] hinj.1]
    simp only [List.singleton_append]
    obtain ⟨hf3, hdir3⟩ := run_const "retrograde_start" "retrograde_end"
      (fun l => ((getSign l).sign, (getSign l).degree)) body lonf "direct" [] [] C jC
      (some "direct") none
      [mkRetroEvent "retrograde_start" body jB
        ((getSign (lonf jB)).sign, (getSign (lonf jB)).degree) none,
       mkRetroEvent "retrograde_end" body jC
        ((getSign (lonf jC)).sign, (getSign (lonf jC)).degree) (some (jsRound (jC - jB)))]
      (by rw [List.append_nil, List.append_nil]; exact hinj.2) (Or.inr rfl)
    rw [List.append_nil] at hf3
    rw [hf3]
    rfl
  · intro hd
    unfold scanEvents retroStep
    obtain ⟨hf, hdir⟩ := scan_start_state "retrograde_start" "retrograde_end"
      (fun l => ((getSign l).sign, (getSign l).degree)) body lonf j0 jB A B ([] : List ℚ) []
      hA (by rw [List.append_nil, List.append_nil]; exact hd)
    rw [List.append_nil] at hf
    rw [hf]
    rfl

/-- A synthetic longitude history on the half-day grid 0, 1/2, ..., 5/2 whose
direction sequence is direct, retrograde, retrograde, retrograde, direct, so the
scan pairs a start at sample 1 with an end at sample 5/2. -/
def lonfCE : ℚ → ℚ := fun t =>
  if t = 0 then 0 else if t = 1/2 then 1 else if t = 1 then 4/5
  else if t = 3/2 then 3/5 else if t = 2 then 2/5 else 1

/-- C8 counterexample: on the synthetic history `lonfCE` the scan pairs a start
at Julian day 1 with an end at Julian day 5/2, and the reported duration is the
ROUNDED difference `Math.round(5/2 - 1) = 2`, not the exact Julian-day
difference 3/2, so the claim's "equals the difference in Julian days between
the end and the start" fails on half-integer differences. -/
theorem retro_duration_not_exact_difference :
    ((scanEvents "Mercury" lonfCE [0, 1/2, 1, 3/2, 2, 5/2]).map
        (fun e => (e.rtype, e.jd, e.duration))
      = [("retrograde_start", 1, none), ("retrograde_end", 5/2, some 2)]) ∧
    (5 / 2 - 1 : ℚ) = 3 / 2 ∧ ¬ ((2 : ℤ) : ℚ) = 3 / 2 := by
  refine ⟨?_, by norm_num, by norm_num⟩
  with_unfolding_all decide

/-- Witness for C8: the pairing theorem applied to the concrete history
`lonfCE`, with the nonemptiness and direction-sequence hypotheses discharged
by computation. -/
theorem retrograde_pairing_witness :
    (([(1:ℚ)/2] : List ℚ) ≠ []) ∧
    scanEvents "Mercury" lonfCE [0, 1/2, 1, 3/2, 2, 5/2] =
      [mkRetroEvent "retrograde_start" "Mercury" 1
         ((getSign (lonfCE 1)).sign, (getSign (lonfCE 1)).degree) none,
       mkRetroEvent "retrograde_end" "Mercury" (5/2)
         ((getSign (lonfCE (5/2))).sign, (getSign (lonfCE (5/2))).degree)
         (some (jsRound (5/2 - 1)))] :=
  ⟨by decide,
   (retrograde_pairing "Mercury" lonfCE 0 1 (5/2) [1/2] [3/2, 2] []
      (by decide)).1 (by with_unfolding_all decide)⟩

/-- C1 (the code's actual behavior at the spec's example): the year-2025 scan
emits zero Mercury retrograde start events, not the 3 or 4 the specification
requires. -/
theorem mercury_retrograde_count_2025 :
    ((calcRetrogrades 2025).filter
      (fun ev => ev.rtype = "retrograde_start" ∧ ev.body = "Mercury")).length = 0 ∧
    ¬ (((calcRetrogrades 2025).filter
      (fun ev => ev.rtype = "retrograde_start" ∧ ev.body = "Mercury")).length = 3 ∨
       ((calcRetrogrades 2025).filter
      (fun ev => ev.rtype = "retrograde_start" ∧ ev.body = "Mercury")).length = 4) := by
  rw [calcRetrogrades_nil 2025]
  norm_num

/-! ## Moon-phase bisection (`getSunMoonAngle`, `detectPhaseCrossing`,
`findExactPhaseTime`)

The solver refines a detected half-day crossing bracket by bisection with 50
iterations and tolerance `0.01`; for the 0-degree target, elongation angles
above 180 are remapped to `angle - 360` before the error is computed. -/

/-- Source `getSunMoonAngle(jd)`: `norm(moonLon - sunLon)`. -/
def getSunMoonAngle (jd : ℚ) : ℚ := norm (lon "moon" jd - lon "sun" jd)

/-- Source `detectPhaseCrossing(prevAngle, currAngle, targetAngle)`. -/
def detectPhaseCrossing (prevAngle currAngle targetAngle : ℚ) : Bool :=
  if targetAngle = 0 then decide (prevAngle > 270 ∧ currAngle < 90)
  else decide (prevAngle < targetAngle ∧ currAngle ≥ targetAngle)

/-- The angle used by the bisection at a sample `mid`: the elongation, with the
0-target remap `if (targetAngle === 0 && angle > 180) angle -= 360` applied. -/
def phaseAngleAt (targetAngle mid : ℚ) : ℚ :=
  if targetAngle = 0 ∧ getSunMoonAngle mid > 180 then getSunMoonAngle mid - 360
  else getSunMoonAngle mid

/-- The bisection loop of `findExactPhaseTime`, with the remaining iteration
count explicit; the source's `mid`, `angle` and `error` locals are inlined. -/
def phaseLoop (targetAngle : ℚ) : ℕ → ℚ → ℚ → ℚ
  | 0, lo, hi => (lo + hi) / 2
  | n + 1, lo, hi =>
    if |phaseAngleAt targetAngle ((lo + hi) / 2) - targetAngle| < 0.01 then (lo + hi) / 2
    else if phaseAngleAt targetAngle ((lo + hi) / 2) - targetAngle > 0 then
      phaseLoop targetAngle n lo ((lo + hi) / 2)
    else phaseLoop targetAngle n ((lo + hi) / 2) hi

/-- Source `findExactPhaseTime(startJd, endJd, targetAngle)`: 50 bisection
iterations starting from the given bracket. -/
def findExactPhaseTime (startJd endJd targetAngle : ℚ) : ℚ :=
  phaseLoop targetAngle 50 startJd endJd

/-- The linear (un-normalized) Sun-Moon elongation: difference of the two
mean-longitude arguments entering `lon`. -/
def elongBase (jd : ℚ) : ℚ := (218.32 - 280.46) + (13.176 - 0.9856) * (jd - J2000)

/-- `norm` of a difference of normalized angles is `norm` of the difference. -/
theorem norm_sub_norm (x y : ℚ) : norm (norm x - norm y) = norm (x - y) := by
  rw [norm_eq_floor x, norm_eq_floor y]
  rw [show x - 360 * (⌊x / 360⌋ : ℚ) - (y - 360 * (⌊y / 360⌋ : ℚ))
      = (x - y) + 360 * ((⌊y / 360⌋ - ⌊x / 360⌋ : ℤ) : ℚ) by push_cast; ring]
  exact norm_add_int_mul _ _

/-- The elongation is the normalization of the linear form `elongBase`. -/
theorem getSunMoonAngle_eq (jd : ℚ) : getSunMoonAngle jd = norm (elongBase jd) := by
  unfold getSunMoonAngle lon
  rw [show PLANETS.lookup "moon" = some ⟨"Moon", 13.176, 218.32⟩ from rfl,
    show PLANETS.lookup "sun" = some ⟨"Sun", 0.9856, 280.46⟩ from rfl]
  rw [norm_sub_norm]
  unfold elongBase
  congr 1
  ring

/-- `norm` is subtraction of the unique fitting multiple of 360. -/
theorem norm_eq_sub (x : ℚ) (k : ℤ) (h0 : 0 ≤ x - 360 * k) (h1 : x - 360 * k < 360) :
    norm x = x - 360 * k := by
  have h := norm_add_int_mul (x - 360 * k) k
  rw [show x - 360 * (k : ℚ) + 360 * k = x by ring] at h
  rw [h]
  exact norm_of_mem _ h0 h1

/-- Bisection invariant: on a bracket where the working angle's error from the
target is an affine function `c * t + d` with positive slope, negative at the
lower end and nonnegative at the upper end, the loop stays inside the bracket
and, once the remaining slope-times-width budget is below the tolerance times
`2 ^ fuel`, lands within the `0.01` tolerance. -/
theorem phaseLoop_spec (T c d lo0 hi0 : ℚ) (hc : 0 < c)
    (haff : ∀ t, lo0 ≤ t → t ≤ hi0 → phaseAngleAt T t - T = c * t + d) :
    ∀ (n : ℕ) (lo hi : ℚ), lo0 ≤ lo → hi ≤ hi0 →
      c * lo + d < 0 → 0 ≤ c * hi + d →
      c * (hi - lo) < 1/100 * 2 ^ n →
      lo ≤ phaseLoop T n lo hi ∧ phaseLoop T n lo hi ≤ hi ∧
        |phaseAngleAt T (phaseLoop T n lo hi) - T| < 1/100 := by
  intro n
  induction n with
  | zero =>
      intro lo hi hlo hhi hel heh hw
      have hlh : lo < hi := by nlinarith
      have hmid1 : lo ≤ (lo + hi) / 2 := by linarith
      have hmid2 : (lo + hi) / 2 ≤ hi := by linarith
      have hval : phaseAngleAt T ((lo + hi) / 2) - T = c * ((lo + hi) / 2) + d :=
        haff _ (le_trans hlo hmid1) (le_trans hmid2 hhi)
      have hw0 : c * (hi - lo) < 1/100 := by
        have h1 : (1:ℚ)/100 * 2 ^ (0:ℕ) = 1/100 := by norm_num
        rw [h1] at hw
        exact hw
      refine ⟨hmid1, hmid2, ?_⟩
      show |phaseAngleAt T ((lo + hi) / 2) - T| < 1/100
      rw [hval, abs_lt,
        show c * ((lo + hi) / 2) + d = ((c * lo + d) + (c * hi + d)) / 2 by ring]
      constructor
      · linarith
      · linarith
  | succ n ih =>
      intro lo hi hlo hhi hel heh hw
      have hlh : lo < hi := by nlinarith
      have hmid1 : lo ≤ (lo + hi) / 2 := by linarith
      have hmid2 : (lo + hi) / 2 ≤ hi := by linarith
      have hval : phaseAngleAt T ((lo + hi) / 2) - T = c * ((lo + hi) / 2) + d :=
        haff _ (le_trans hlo hmid1) (le_trans hmid2 hhi)
      show lo ≤ phaseLoop T (n + 1) lo hi ∧ phaseLoop T (n + 1) lo hi ≤ hi ∧
        |phaseAngleAt T (phaseLoop T (n + 1) lo hi) - T| < 1/100
      simp only [phaseLoop]
      split_ifs with h h2
      · exact ⟨hmid1, hmid2, by norm_num at h; exact h⟩
      · have heh2 : 0 ≤ c * ((lo + hi) / 2) + d := by rw [hval] at h2; linarith
        have hw2 : c * ((lo + hi) / 2 - lo) < 1/100 * 2 ^ n := by
          rw [show c * ((lo + hi) / 2 - lo) = c * (hi - lo) / 2 by ring]
          rw [show (1:ℚ)/100 * 2 ^ (n + 1) = 1/100 * 2 ^ n * 2 by ring] at hw
          linarith
        obtain ⟨h1, h2', h3⟩ := ih lo ((lo + hi) / 2) hlo (le_trans hmid2 hhi) hel heh2 hw2
        exact ⟨h1, le_trans h2' hmid2, h3⟩
      · have hle : c * ((lo + hi) / 2) + d ≤ 0 := by rw [hval] at h2; linarith [not_lt.mp h2]
        have habs : 1/100 ≤ |c * ((lo + hi) / 2) + d| := by
          rw [← hval]
          have := not_lt.mp h
          norm_num at this
          exact this
        have hel2 : c * ((lo + hi) / 2) + d < 0 := by
          rw [abs_of_nonpos hle] at habs
          linarith
        have hw2 : c * (hi - (lo + hi) / 2) < 1/100 * 2 ^ n := by
          rw [show c * (hi - (lo + hi) / 2) = c * (hi - lo) / 2 by ring]
          rw [show (1:ℚ)/100 * 2 ^ (n + 1) = 1/100 * 2 ^ n * 2 by ring] at hw
          linarith
        obtain ⟨h1, h2', h3⟩ := ih ((lo + hi) / 2) hi (le_trans hlo hmid1) hhi hel2 heh hw2
        exact ⟨le_trans hmid1 h1, h2', h3⟩

/-- C7: for a half-day bracket `[a, a + 1/2]` on which `detectPhaseCrossing`
reports a crossing of a target angle in {0, 90, 180, 270}, the solver
`findExactPhaseTime` is exactly 50 bisection iterations (first conjunct, by
definition), returns a Julian day inside the bracket, and the elongation
there, remapped by `angle - 360` when it exceeds 180 for the 0-degree target,
deviates from the target by less than the 0.01-degree tolerance. -/
theorem findExactPhaseTime_refines_bracket (T a : ℚ)
    (hT : T = 0 ∨ T = 90 ∨ T = 180 ∨ T = 270)
    (hcross : detectPhaseCrossing (getSunMoonAngle a) (getSunMoonAngle (a + 1/2)) T = true) :
    findExactPhaseTime a (a + 1/2) T = phaseLoop T 50 a (a + 1/2) ∧
    (a ≤ findExactPhaseTime a (a + 1/2) T ∧
     findExactPhaseTime a (a + 1/2) T ≤ a + 1/2 ∧
     |phaseAngleAt T (findExactPhaseTime a (a + 1/2) T) - T| < 1/100) := by
  refine ⟨rfl, ?_⟩
  obtain ⟨k, hna, h0a, h1a⟩ : ∃ k : ℤ, norm (elongBase a) = elongBase a - 360 * (k:ℚ) ∧
      0 ≤ elongBase a - 360 * (k:ℚ) ∧ elongBase a - 360 * (k:ℚ) < 360 :=
    ⟨⌊elongBase a / 360⌋, norm_eq_floor _,
     by rw [← norm_eq_floor]; exact norm_nonneg _,
     by rw [← norm_eq_floor]; exact norm_lt_360 _⟩
  have hstep : elongBase (a + 1/2) = elongBase a + 6.0952 := by
    unfold elongBase
    ring
  have hmono : ∀ t : ℚ, a ≤ t → t ≤ a + 1/2 →
      elongBase a ≤ elongBase t ∧ elongBase t ≤ elongBase a + 6.0952 := by
    intro t h1 h2
    constructor
    · unfold elongBase
      linarith
    · unfold elongBase
      linarith
  rcases hT with rfl | hT'
  · unfold detectPhaseCrossing at hcross
    rw [if_pos rfl, decide_eq_true_eq] at hcross
    obtain ⟨ha270, hb90⟩ := hcross
    rw [getSunMoonAngle_eq, hna] at ha270
    rw [getSunMoonAngle_eq] at hb90
    have hwrap : 360 ≤ elongBase (a + 1/2) - 360 * (k:ℚ) := by
      by_contra hlt
      push_neg at hlt
      have hnb : norm (elongBase (a + 1/2)) = elongBase (a + 1/2) - 360 * (k:ℚ) :=
        norm_eq_sub _ k (by rw [hstep]; linarith) hlt
      rw [hnb, hstep] at hb90
      linarith
    have haff : ∀ t, a ≤ t → t ≤ a + 1/2 →
        phaseAngleAt 0 t - 0 = (13.176 - 0.9856) * t +
          ((218.32 - 280.46) - (13.176 - 0.9856) * J2000 - 360 * ((k:ℚ) + 1) - 0) := by
      intro t h1 h2
      obtain ⟨hm1, hm2⟩ := hmono t h1 h2
      by_cases hu : elongBase t - 360 * (k:ℚ) < 360
      · have hnt : norm (elongBase t) = elongBase t - 360 * (k:ℚ) :=
          norm_eq_sub _ k (by linarith) hu
        unfold phaseAngleAt
        rw [if_pos ⟨rfl, by rw [getSunMoonAngle_eq, hnt]; linarith⟩]
        rw [getSunMoonAngle_eq, hnt]
        unfold elongBase
        ring
      · push_neg at hu
        have hnt : norm (elongBase t) = elongBase t - 360 * ((k + 1 : ℤ) : ℚ) :=
          norm_eq_sub _ (k + 1) (by push_cast; linarith) (by push_cast; linarith)
        have hng : ¬ ((0:ℚ) = 0 ∧ getSunMoonAngle t > 180) := by
          rintro ⟨-, hgt⟩
          rw [getSunMoonAngle_eq, hnt] at hgt
          push_cast at hgt
          linarith
        unfold phaseAngleAt
        rw [if_neg hng, getSunMoonAngle_eq, hnt]
        push_cast
        unfold elongBase
        ring
    have key : ∀ t : ℚ, (13.176 - 0.9856) * t +
        ((218.32 - 280.46) - (13.176 - 0.9856) * J2000 - 360 * ((k:ℚ) + 1) - 0)
        = elongBase t - 360 * (k:ℚ) - 360 := by
      intro t
      unfold elongBase
      ring
    have hel : (13.176 - 0.9856) * a +
        ((218.32 - 280.46) - (13.176 - 0.9856) * J2000 - 360 * ((k:ℚ) + 1) - 0) < 0 := by
      rw [key]
      linarith
    have heh : 0 ≤ (13.176 - 0.9856) * (a + 1/2) +
        ((218.32 - 280.46) - (13.176 - 0.9856) * J2000 - 360 * ((k:ℚ) + 1) - 0) := by
      rw [key]
      linarith
    exact phaseLoop_spec 0 (13.176 - 0.9856) _ a (a + 1/2) (by norm_num) haff 50 a (a + 1/2)
      le_rfl le_rfl hel heh
      (by rw [show a + 1/2 - a = (1/2 : ℚ) from by ring]; norm_num)
  · have hTne : T ≠ 0 := by
      rcases hT' with rfl | rfl | rfl
      all_goals norm_num
    have hT90 : 90 ≤ T := by
      rcases hT' with rfl | rfl | rfl
      all_goals norm_num
    unfold detectPhaseCrossing at hcross
    rw [if_neg hTne, decide_eq_true_eq] at hcross
    obtain ⟨haT, hbT⟩ := hcross
    rw [getSunMoonAngle_eq, hna] at haT
    rw [getSunMoonAngle_eq] at hbT
    have hnw : elongBase (a + 1/2) - 360 * (k:ℚ) < 360 := by
      by_contra hge
      push_neg at hge
      have hnb : norm (elongBase (a + 1/2)) = elongBase (a + 1/2) - 360 * ((k + 1 : ℤ) : ℚ) :=
        norm_eq_sub _ (k + 1) (by push_cast; linarith)
          (by push_cast; rw [hstep]; linarith)
      rw [hnb] at hbT
      push_cast at hbT
      rw [hstep] at hbT
      linarith
    have haff : ∀ t, a ≤ t → t ≤ a + 1/2 →
        phaseAngleAt T t - T = (13.176 - 0.9856) * t +
          ((218.32 - 280.46) - (13.176 - 0.9856) * J2000 - 360 * (k:ℚ) - T) := by
      intro t h1 h2
      obtain ⟨hm1, hm2⟩ := hmono t h1 h2
      have hnt : norm (elongBase t) = elongBase t - 360 * (k:ℚ) :=
        norm_eq_sub _ k (by linarith) (by rw [hstep] at hnw; linarith)
      have hng : ¬ (T = 0 ∧ getSunMoonAngle t > 180) := fun hcond => hTne hcond.1
      unfold phaseAngleAt
      rw [if_neg hng, getSunMoonAngle_eq, hnt]
      unfold elongBase
      ring
    have key : ∀ t : ℚ, (13.176 - 0.9856) * t +
        ((218.32 - 280.46) - (13.176 - 0.9856) * J2000 - 360 * (k:ℚ) - T)
        = elongBase t - 360 * (k:ℚ) - T := by
      intro t
      unfold elongBase
      ring
    have hel : (13.176 - 0.9856) * a +
        ((218.32 - 280.46) - (13.176 - 0.9856) * J2000 - 360 * (k:ℚ) - T) < 0 := by
      rw [key]
      linarith
    have heh : 0 ≤ (13.176 - 0.9856) * (a + 1/2) +
        ((218.32 - 280.46) - (13.176 - 0.9856) * J2000 - 360 * (k:ℚ) - T) := by
      rw [key]
      have hnb : norm (elongBase (a + 1/2)) = elongBase (a + 1/2) - 360 * (k:ℚ) :=
        norm_eq_sub _ k (by rw [hstep]; linarith) hnw
      rw [hnb] at hbT
      linarith
    exact phaseLoop_spec T (13.176 - 0.9856) _ a (a + 1/2) (by norm_num) haff 50 a (a + 1/2)
      le_rfl le_rfl hel heh
      (by rw [show a + 1/2 - a = (1/2 : ℚ) from by ring]; norm_num)

/-- Witness for C7: a concrete new-moon (0-degree target) crossing bracket
five days after the J2000 epoch, where the elongation wraps from 358.812 to
4.9072 degrees across the half day. -/
theorem findExactPhaseTime_refines_bracket_witness :
    (((0:ℚ) = 0 ∨ (0:ℚ) = 90 ∨ (0:ℚ) = 180 ∨ (0:ℚ) = 270) ∧
     detectPhaseCrossing (getSunMoonAngle 2451550) (getSunMoonAngle (2451550 + 1/2)) 0
       = true) ∧
    (findExactPhaseTime 2451550 (2451550 + 1/2) 0 = phaseLoop 0 50 2451550 (2451550 + 1/2) ∧
     (2451550 ≤ findExactPhaseTime 2451550 (2451550 + 1/2) 0 ∧
      findExactPhaseTime 2451550 (2451550 + 1/2) 0 ≤ 2451550 + 1/2 ∧
      |phaseAngleAt 0 (findExactPhaseTime 2451550 (2451550 + 1/2) 0) - 0| < 1/100)) :=
  ⟨⟨Or.inl rfl, by with_unfolding_all decide⟩,
   findExactPhaseTime_refines_bracket 0 2451550 (Or.inl rfl) (by with_unfolding_all decide)⟩

/-! ## Midheaven (`calcMidheaven`)

The chart-geometry functions work with real trigonometry, so this part of the
embedding lives in `ℝ`; `Math.atan2` is modelled by its piecewise definition
over the signs of its arguments. -/

/-- Source constant `OBLIQUITY` (Earth's axial tilt in degrees). -/
def OBLIQUITY : ℝ := 23.4393

/-- Source `degToRad(d)`. -/
noncomputable def degToRad (d : ℝ) : ℝ := d * Real.pi / 180

/-- Source `radToDeg(r)`. -/
noncomputable def radToDeg (r : ℝ) : ℝ := r * 180 / Real.pi

/-- Truncation toward zero, the rounding JS `%` applies to the quotient. -/
noncomputable def truncR (x : ℝ) : ℤ := if x < 0 then ⌈x⌉ else ⌊x⌋

/-- JS `%` on real operands. -/
noncomputable def jsRemR (a b : ℝ) : ℝ := a - b * truncR (a / b)

/-- Source `norm` over real angles. -/
noncomputable def normR (a : ℝ) : ℝ :=
  if jsRemR a 360 < 0 then jsRemR a 360 + 360 else jsRemR a 360

/-- JS `Math.atan2(y, x)` by its sign cases (real numbers carry no signed
zero, so the four zero-argument cases collapse to the final branch). -/
noncomputable def atan2 (y x : ℝ) : ℝ :=
  if x > 0 then Real.arctan (y / x)
  else if x < 0 ∧ 0 ≤ y then Real.arctan (y / x) + Real.pi
  else if x < 0 ∧ y < 0 then Real.arctan (y / x) - Real.pi
  else if x = 0 ∧ 0 < y then Real.pi / 2
  else if x = 0 ∧ y < 0 then -(Real.pi / 2)
  else 0

/-- Source `gmst(jd)` with the local `T = (jd - J2000) / 36525` inlined. -/
noncomputable def gmst (jd : ℝ) : ℝ :=
  normR (280.46061837 + 360.98564736629 * (jd - 2451545.0)
    + 0.000387933 * (((jd - 2451545.0) / 36525) * ((jd - 2451545.0) / 36525))
    - (((jd - 2451545.0) / 36525) * ((jd - 2451545.0) / 36525)
        * ((jd - 2451545.0) / 36525)) / 38710000)

/-- Source `lst(jd, longitude)`. -/
noncomputable def lst (jd longitude : ℝ) : ℝ := normR (gmst jd + longitude)

/-- The body of `calcMidheaven` as a function of the local sidereal time:
`norm(radToDeg(atan2(sin(lstRad), cos(lstRad) * cos(oblRad))))`. -/
noncomputable def midheavenCore (localST : ℝ) : ℝ :=
  normR (radToDeg (atan2 (Real.sin (degToRad localST))
    (Real.cos (degToRad localST) * Real.cos (degToRad OBLIQUITY))))

/-- Source `calcMidheaven(jd, longitude)`; note latitude is not an input. -/
noncomputable def calcMidheaven (jd longitude : ℝ) : ℝ := midheavenCore (lst jd longitude)

/-- The x-axis case of `atan2` the specification's own derivation invokes. -/
theorem atan2_one_zero : atan2 1 0 = Real.pi / 2 := by
  unfold atan2
  rw [if_neg (lt_irrefl (0:ℝ)), if_neg (fun h => lt_irrefl (0:ℝ) h.1),
    if_neg (fun h => lt_irrefl (0:ℝ) h.1), if_pos ⟨rfl, one_pos⟩]

/-- `normR` fixes 90. -/
theorem normR_ninety : normR 90 = 90 := by
  have hrem : jsRemR 90 360 = 90 := by
    unfold jsRemR truncR
    rw [show ((90:ℝ) / 360) = 1/4 by norm_num, if_neg (by norm_num),
      show ⌊(1/4 : ℝ)⌋ = 0 from by
        rw [Int.floor_eq_zero_iff]
        exact Set.mem_Ico.mpr ⟨by norm_num, by norm_num⟩]
    norm_num
  unfold normR
  rw [hrem, if_neg (by norm_num)]

/-- The midheaven body evaluates to 90 degrees at local sidereal time 90. -/
theorem midheavenCore_at_ninety : midheavenCore 90 = 90 := by
  unfold midheavenCore
  have hdr : degToRad 90 = Real.pi / 2 := by
    unfold degToRad
    ring
  rw [hdr, Real.sin_pi_div_two, Real.cos_pi_div_two, zero_mul, atan2_one_zero]
  have hrd : radToDeg (Real.pi / 2) = 90 := by
    unfold radToDeg
    field_simp
    ring
  rw [hrd, normR_ninety]

/-- C3 counterexample: at local sidereal time 90 degrees the midheaven
computation `norm(radToDeg(atan2(sin(LST), cos(LST)cos(ε))))` returns 90
degrees, not the 0 degrees (Aries) the specification requires. -/
theorem midheaven_at_lst90_not_zero : midheavenCore 90 ≠ 0 := by
  rw [midheavenCore_at_ninety]
  norm_num

/-- C3 (amended): at local sidereal time 90 degrees (for every latitude:
latitude is not an input of `calcMidheaven`), the midheaven computation
returns 90 degrees, i.e. 0 degrees Cancer, since
`atan2(sin 90°, cos 90° · cos ε) = atan2(1, 0) = π/2 = 90°`. -/
theorem midheaven_at_lst90 :
    atan2 1 0 = Real.pi / 2 ∧ midheavenCore 90 = 90 :=
  ⟨atan2_one_zero, midheavenCore_at_ninety⟩

end Celestial
